import Mathlib

/-!
Verification of the downloader-middleware chain engine
(`scrapy/core/downloader/middleware.py`).

We shallowly embed `DownloaderMiddlewareManager._add_middleware` and the
three local async chains of `download_async` (`process_request`,
`process_response`, `process_exception`) plus the orchestration itself.

Modelling decisions, each matching the Python source:
* A `Response` / `Request` payload is an opaque natural number; the chain
  never inspects it.  `scrapy.http` objects define no `__bool__`/`__len__`,
  so `if response:` in the source is exactly "is not None": `Option` is a
  faithful model of the nothing-vs-message distinction.
* A hook call either returns a value (possibly `None`, possibly of an
  invalid type, whose type name we keep as a string for the
  `_InvalidOutput` message) or raises.  Since every hook of one run is
  called with the same `request` (and `exception`), a request/exception
  hook is modelled by its outcome; a response hook receives the current
  response value threaded through the chain, so it is a function of it.
  The `spider` keyword argument (looked up in `_mw_methods_requiring_spider`)
  only changes the call shape, never the treatment of the hook result, so
  it is absorbed into the hook's outcome.
* Raised errors carry `isException : Bool`: `True` for `Exception`
  subclasses, `False` for other `BaseException`s (e.g. `KeyboardInterrupt`);
  `download_async` catches only `Exception`.  `_InvalidOutput` and
  `TypeError` are `Exception` subclasses.
* Telemetry: `signals.send_catch_log` calls become `Event`s in an emission
  list, in emission order; the `if self.crawler:` guard becomes the
  `crawler : Bool` flag.  Wall-clock durations (`time.perf_counter`) are
  outside a shallow embedding and are dropped from the records; the rest
  of each record (method name, middleware name, executed list, error) is
  kept.
* `await _defer_sleep_async()` (the cooperative yield inserted before
  exception recovery) is recorded as the event `Event.yielded`.
-/

namespace DownloaderMW

/-- The string `process_request` (the method name used in telemetry). -/
def prName : String := "process_request"

/-- The string `process_response`. -/
def psName : String := "process_response"

/-- The string `process_exception`. -/
def peName : String := "process_exception"

/-- An exception value: its name and whether it is an `Exception`
(as opposed to a bare `BaseException` like `KeyboardInterrupt`). -/
structure ExcInfo where
  name : String
  isException : Bool
deriving DecidableEq, Repr

/-- An error propagating out of a chain: either an exception raised by a
hook or the fetch (`raised`), the `_InvalidOutput` raised when a hook
returns a value of the wrong type (middleware name, hook kind, offending
type name), or the `TypeError("Received None in process_response")`. -/
inductive Exc
  | raised (e : ExcInfo)
  | invalidOutput (mwName hookKind tyName : String)
  | typeErrorNone
deriving DecidableEq, Repr

/-- Whether the error is an `Exception` in Python's hierarchy:
`_InvalidOutput` and `TypeError` are `Exception` subclasses. -/
def Exc.isException : Exc → Bool
  | .raised e => e.isException
  | .invalidOutput _ _ _ => true
  | .typeErrorNone => true

/-- A chain result: a genuine response or a request (retry signal). -/
inductive Result
  | resp (n : ℕ)
  | req (n : ℕ)
deriving DecidableEq, Repr

/-- Outcome of running a chain: a returned value or a propagating error. -/
inductive Outcome (α : Type)
  | ok (a : α)
  | err (e : Exc)
deriving DecidableEq, Repr

/-- The chain error recorded by the chain-level `finally`:
`chain_error` is set only when the chain body raised. -/
def chainErrOf : Outcome Result → Option Exc
  | .ok _ => none
  | .err e => some e

/-- One `signals.send_catch_log` emission, or the cooperative yield. -/
inductive Event
  | methodComplete (methodName mwName : String) (error : Option Exc)
  | chainComplete (methodName : String) (executed : List String) (error : Option Exc)
  | yielded
deriving DecidableEq, Repr

/-- What a `process_request` or `process_exception` hook call does:
return a value (`none`, a `Result`, or something of an invalid type,
named), or raise. -/
inductive HookRes
  | ok (o : Option Result)
  | bad (tyName : String)
  | err (e : ExcInfo)
deriving DecidableEq, Repr

/-- What a `process_response` hook call does with the current response. -/
inductive RespHookRes
  | ok (r : Result)
  | bad (tyName : String)
  | err (e : ExcInfo)
deriving DecidableEq, Repr

/-- A registered `process_request` or `process_exception` hook:
its middleware name (`method.__qualname__.split('.')[0]`) and outcome. -/
structure Hook where
  name : String
  run : HookRes
deriving DecidableEq, Repr

/-- A registered `process_response` hook: middleware name and behaviour
as a function of the current response payload. -/
structure RespHook where
  name : String
  run : ℕ → RespHookRes

/-- The `self.methods` registry: three ordered hook lists. -/
structure Methods where
  process_request : List Hook
  process_response : List RespHook
  process_exception : List Hook

/-- An interceptor handed to registration: its name and which of the
three optional hook methods it exposes. -/
structure Middleware where
  name : String
  process_request : Option HookRes
  process_response : Option (ℕ → RespHookRes)
  process_exception : Option HookRes

/-- `DownloaderMiddlewareManager._add_middleware`: `process_request`
methods are appended, `process_response` and `process_exception` methods
are `appendleft`-ed (prepended). -/
def add_middleware (st : Methods) (mw : Middleware) : Methods :=
  let st1 : Methods :=
    match mw.process_request with
    | some r => { st with process_request := st.process_request ++ [⟨mw.name, r⟩] }
    | none => st
  let st2 : Methods :=
    match mw.process_response with
    | some f => { st1 with process_response := ⟨mw.name, f⟩ :: st1.process_response }
    | none => st1
  match mw.process_exception with
  | some r => { st2 with process_exception := ⟨mw.name, r⟩ :: st2.process_exception }
  | none => st2

/-- Modelled from the spec: the registration loop over the ordered
interceptor list lives in the `MiddlewareManager` base class, which is not
under `src/`; per the spec it calls `_add_middleware` "for each interceptor
in input order", starting from empty method lists. -/
def register (mws : List Middleware) : Methods :=
  mws.foldl add_middleware ⟨[], [], []⟩

/-- The `middleware_method_complete` emission guarded by `if self.crawler:`. -/
def methodEvent (crawler : Bool) (methodName mwName : String) (error : Option Exc) :
    List Event :=
  if crawler then [.methodComplete methodName mwName error] else []

/-- The `middleware_chain_complete` emission guarded by `if self.crawler:`. -/
def chainEvent (crawler : Bool) (methodName : String) (executed : List String)
    (error : Option Exc) : List Event :=
  if crawler then [.chainComplete methodName executed error] else []

/-- The `for method in self.methods["process_request"]` loop body of
`process_request`, and the final `return await download_func(request)`:
returns the outcome, the `middlewares_executed` names (each appended
before its hook is invoked) and the method-level events in emission
order. -/
def process_request_go (crawler : Bool) (fetch : Except ExcInfo ℕ) :
    List Hook → Outcome Result × List String × List Event
  | [] =>
      match fetch with
      | .ok n => (.ok (.resp n), [], [])
      | .error e => (.err (.raised e), [], [])
  | h :: hs =>
      match h.run with
      | .ok none =>
          let g := process_request_go crawler fetch hs
          (g.1, h.name :: g.2.1, methodEvent crawler prName h.name none ++ g.2.2)
      | .ok (some r) =>
          (.ok r, [h.name], methodEvent crawler prName h.name none)
      | .bad ty =>
          let e := Exc.invalidOutput h.name prName ty
          (.err e, [h.name], methodEvent crawler prName h.name (some e))
      | .err ei =>
          let e := Exc.raised ei
          (.err e, [h.name], methodEvent crawler prName h.name (some e))

/-- `process_request`: run the hook loop (falling through to the fetch),
then the chain-level `finally` emits the `middleware_chain_complete`
record with the executed names and the chain error, on every exit. -/
def process_request (crawler : Bool) (hooks : List Hook) (fetch : Except ExcInfo ℕ) :
    Outcome Result × List Event :=
  let g := process_request_go crawler fetch hooks
  (g.1, g.2.2 ++ chainEvent crawler prName g.2.1 (chainErrOf g.1))

/-- The `for method in self.methods["process_response"]` loop of
`process_response`, threading the current response payload. -/
def process_response_go (crawler : Bool) :
    List RespHook → ℕ → Outcome Result × List String × List Event
  | [], n => (.ok (.resp n), [], [])
  | h :: hs, n =>
      match h.run n with
      | .ok (.req q) =>
          (.ok (.req q), [h.name], methodEvent crawler psName h.name none)
      | .ok (.resp m) =>
          let g := process_response_go crawler hs m
          (g.1, h.name :: g.2.1, methodEvent crawler psName h.name none ++ g.2.2)
      | .bad ty =>
          let e := Exc.invalidOutput h.name psName ty
          (.err e, [h.name], methodEvent crawler psName h.name (some e))
      | .err ei =>
          let e := Exc.raised ei
          (.err e, [h.name], methodEvent crawler psName h.name (some e))

/-- `process_response`: a `None` input raises `TypeError` and a `Request`
input is returned unchanged, both before the chain timer and the
`try/finally` are entered (so neither emits any event); a `Response`
input runs the loop under the chain-level `finally` that emits the
`middleware_chain_complete` record. -/
def process_response (crawler : Bool) (hooks : List RespHook)
    (input : Option Result) : Outcome Result × List Event :=
  match input with
  | none => (.err .typeErrorNone, [])
  | some (.req q) => (.ok (.req q), [])
  | some (.resp n) =>
      let g := process_response_go crawler hooks n
      (g.1, g.2.2 ++ chainEvent crawler psName g.2.1 (chainErrOf g.1))

/-- The `for method in self.methods["process_exception"]` loop of
`process_exception`, ending in `raise exception` (re-raising the original
exception) when no hook resolves it. -/
def process_exception_go (crawler : Bool) (exc : Exc) :
    List Hook → Outcome Result × List String × List Event
  | [] => (.err exc, [], [])
  | h :: hs =>
      match h.run with
      | .ok none =>
          let g := process_exception_go crawler exc hs
          (g.1, h.name :: g.2.1, methodEvent crawler peName h.name none ++ g.2.2)
      | .ok (some r) =>
          (.ok r, [h.name], methodEvent crawler peName h.name none)
      | .bad ty =>
          let e := Exc.invalidOutput h.name peName ty
          (.err e, [h.name], methodEvent crawler peName h.name (some e))
      | .err ei =>
          let e := Exc.raised ei
          (.err e, [h.name], methodEvent crawler peName h.name (some e))

/-- `process_exception`: the hook loop under the chain-level `finally`. -/
def process_exception (crawler : Bool) (hooks : List Hook) (exc : Exc) :
    Outcome Result × List Event :=
  let g := process_exception_go crawler exc hooks
  (g.1, g.2.2 ++ chainEvent crawler peName g.2.1 (chainErrOf g.1))

/-- The orchestration at the bottom of `download_async`:
`try: result = await process_request(request)`; `except Exception as ex:`
yield once (`await _defer_sleep_async()`) then
`result = await process_exception(ex)`; finally
`return await process_response(result)`.  A `BaseException` that is not
an `Exception` is not caught and propagates directly; an unresolved
`process_exception` propagates its error and `process_response` never
runs. -/
def download_async (crawler : Bool) (m : Methods) (fetch : Except ExcInfo ℕ) :
    Outcome Result × List Event :=
  let pr := process_request crawler m.process_request fetch
  match pr.1 with
  | .ok r =>
      let ps := process_response crawler m.process_response (some r)
      (ps.1, pr.2 ++ ps.2)
  | .err e =>
      if e.isException then
        let pe := process_exception crawler m.process_exception e
        match pe.1 with
        | .ok r =>
            let ps := process_response crawler m.process_response (some r)
            (ps.1, pr.2 ++ Event.yielded :: (pe.2 ++ ps.2))
        | .err e2 => (.err e2, pr.2 ++ Event.yielded :: pe.2)
      else (.err e, pr.2)

/-- The method-level records in an emission list: middleware name and error
of each `middleware_method_complete` event, in order. -/
def methodRecords : List Event → List (String × Option Exc)
  | [] => []
  | .methodComplete _ mw e :: evs => (mw, e) :: methodRecords evs
  | .chainComplete _ _ _ :: evs => methodRecords evs
  | .yielded :: evs => methodRecords evs

/-- The chain-level records in an emission list: executed-names list and
error of each `middleware_chain_complete` event, in order. -/
def chainRecords : List Event → List (List String × Option Exc)
  | [] => []
  | .chainComplete _ ns e :: evs => (ns, e) :: chainRecords evs
  | .methodComplete _ _ _ :: evs => chainRecords evs
  | .yielded :: evs => chainRecords evs

/-- The chain-level records emitted by one particular chain. -/
def chainRecordsOf (methodName : String) : List Event → List (List String × Option Exc)
  | [] => []
  | .chainComplete mn ns e :: evs =>
      if mn = methodName then (ns, e) :: chainRecordsOf methodName evs
      else chainRecordsOf methodName evs
  | .methodComplete _ _ _ :: evs => chainRecordsOf methodName evs
  | .yielded :: evs => chainRecordsOf methodName evs

/-- How many cooperative yields an emission list contains. -/
def yieldCount : List Event → ℕ
  | [] => 0
  | .yielded :: evs => yieldCount evs + 1
  | .methodComplete _ _ _ :: evs => yieldCount evs
  | .chainComplete _ _ _ :: evs => yieldCount evs

/-- An emission list made only of method-level events (the inside of one
chain's loop emits nothing else). -/
def methodOnly : List Event → Bool
  | [] => true
  | .methodComplete _ _ _ :: evs => methodOnly evs
  | .chainComplete _ _ _ :: _ => false
  | .yielded :: _ => false

/-- A fixture middleware name. -/
def nmA : String := "AuthMW"

/-- A fixture middleware name. -/
def nmB : String := "CacheMW"

/-- A fixture middleware name. -/
def nmC : String := "RetryMW"

/-- A fixture offending type name for `_InvalidOutput` messages. -/
def tyInt : String := "int"

/-- A fixture `Exception`-class error raised by a hook or the fetch. -/
def boom : ExcInfo := ⟨"RuntimeError", true⟩

/-- A fixture `BaseException` that is not an `Exception`. -/
def interrupt : ExcInfo := ⟨"KeyboardInterrupt", false⟩

/-- Fixture hook returning `None`. -/
def hookNoneA : Hook := ⟨nmA, .ok none⟩

/-- Fixture hook returning a `Response`. -/
def hookRespB : Hook := ⟨nmB, .ok (some (.resp 7))⟩

/-- Fixture hook returning `None`. -/
def hookNoneC : Hook := ⟨nmC, .ok none⟩

/-- Fixture hook raising an `Exception`. -/
def hookRaiseB : Hook := ⟨nmB, .err boom⟩

/-- Fixture hook raising a non-`Exception` `BaseException`. -/
def hookInterruptB : Hook := ⟨nmB, .err interrupt⟩

/-- Fixture exception hook resolving to a `Response`. -/
def hookResolveC : Hook := ⟨nmC, .ok (some (.resp 3))⟩

/-- Fixture response hook returning a `Request`. -/
def rhookReqA : RespHook := ⟨nmA, fun _ => .ok (.req 9)⟩

/-- Fixture response hook replacing the response payload by its successor. -/
def rhookIncB : RespHook := ⟨nmB, fun k => .ok (.resp (k + 1))⟩

/-- Fixture response hook returning an `int` (an invalid output). -/
def rhookBadC : RespHook := ⟨nmC, fun _ => .bad tyInt⟩

/-- Fixture registry whose request chain raises an `Exception` and whose
exception chain resolves it. -/
def mwFail : Methods := ⟨[hookRaiseB], [], [hookResolveC]⟩

/-- Fixture registry whose request chain raises an `Exception` and whose
exception chain is empty (the exception stays unresolved). -/
def mwUnresolved : Methods := ⟨[hookRaiseB], [], []⟩

/-- Fixture registry whose request chain raises a `KeyboardInterrupt`. -/
def mwInterrupt : Methods := ⟨[hookInterruptB], [], [hookResolveC]⟩

lemma methodRecords_append (a b : List Event) :
    methodRecords (a ++ b) = methodRecords a ++ methodRecords b := by
  induction a with
  | nil => rfl
  | cons e a ih => cases e <;> simp [methodRecords, ih]

lemma chainRecords_append (a b : List Event) :
    chainRecords (a ++ b) = chainRecords a ++ chainRecords b := by
  induction a with
  | nil => rfl
  | cons e a ih => cases e <;> simp [chainRecords, ih]

lemma chainRecordsOf_append (mn : String) (a b : List Event) :
    chainRecordsOf mn (a ++ b) = chainRecordsOf mn a ++ chainRecordsOf mn b := by
  induction a with
  | nil => rfl
  | cons e a ih =>
      cases e with
      | methodComplete mn2 mw er => simpa [chainRecordsOf] using ih
      | yielded => simpa [chainRecordsOf] using ih
      | chainComplete mn2 ns er =>
          simp only [List.cons_append, chainRecordsOf, ih]
          split <;> simp [ih]

lemma yieldCount_append (a b : List Event) :
    yieldCount (a ++ b) = yieldCount a + yieldCount b := by
  induction a with
  | nil => simp [yieldCount]
  | cons e a ih =>
      cases e with
      | yielded => simp [yieldCount, ih]; omega
      | methodComplete mn mw er => simp [yieldCount, ih]
      | chainComplete mn ns er => simp [yieldCount, ih]

lemma methodOnly_append (a b : List Event)
    (ha : methodOnly a = true) (hb : methodOnly b = true) :
    methodOnly (a ++ b) = true := by
  induction a with
  | nil => simpa using hb
  | cons e a ih =>
      cases e with
      | methodComplete mn mw er =>
          exact ih (by simpa [methodOnly] using ha)
      | chainComplete mn ns er => simp [methodOnly] at ha
      | yielded => simp [methodOnly] at ha

lemma methodOnly_methodEvent (c : Bool) (mn mw : String) (er : Option Exc) :
    methodOnly (methodEvent c mn mw er) = true := by
  cases c <;> rfl

lemma chainRecords_of_methodOnly (evs : List Event) (h : methodOnly evs = true) :
    chainRecords evs = [] := by
  induction evs with
  | nil => rfl
  | cons e evs ih =>
      cases e with
      | methodComplete mn mw er =>
          exact ih (by simpa [methodOnly] using h)
      | chainComplete mn ns er => simp [methodOnly] at h
      | yielded => simp [methodOnly] at h

lemma chainRecordsOf_of_methodOnly (mn : String) (evs : List Event)
    (h : methodOnly evs = true) : chainRecordsOf mn evs = [] := by
  induction evs with
  | nil => rfl
  | cons e evs ih =>
      cases e with
      | methodComplete mn2 mw er =>
          exact ih (by simpa [methodOnly] using h)
      | chainComplete mn2 ns er => simp [methodOnly] at h
      | yielded => simp [methodOnly] at h

lemma yieldCount_of_methodOnly (evs : List Event) (h : methodOnly evs = true) :
    yieldCount evs = 0 := by
  induction evs with
  | nil => rfl
  | cons e evs ih =>
      cases e with
      | methodComplete mn mw er =>
          exact ih (by simpa [methodOnly] using h)
      | chainComplete mn ns er => simp [methodOnly] at h
      | yielded => simp [methodOnly] at h

lemma methodOnly_process_request_go (c : Bool) (fetch : Except ExcInfo ℕ)
    (hooks : List Hook) :
    methodOnly (process_request_go c fetch hooks).2.2 = true := by
  induction hooks with
  | nil => cases fetch <;> rfl
  | cons h hs ih =>
      cases hr : h.run with
      | ok o =>
          cases o with
          | none =>
              simp only [process_request_go, hr]
              exact methodOnly_append _ _ (methodOnly_methodEvent ..) ih
          | some r => simp [process_request_go, hr, methodOnly_methodEvent]
      | bad ty => simp [process_request_go, hr, methodOnly_methodEvent]
      | err ei => simp [process_request_go, hr, methodOnly_methodEvent]

lemma methodOnly_process_response_go (c : Bool) (hooks : List RespHook) (n : ℕ) :
    methodOnly (process_response_go c hooks n).2.2 = true := by
  induction hooks generalizing n with
  | nil => rfl
  | cons h hs ih =>
      cases hr : h.run n with
      | ok r =>
          cases r with
          | resp m =>
              simp only [process_response_go, hr]
              exact methodOnly_append _ _ (methodOnly_methodEvent ..) (ih m)
          | req q => simp [process_response_go, hr, methodOnly_methodEvent]
      | bad ty => simp [process_response_go, hr, methodOnly_methodEvent]
      | err ei => simp [process_response_go, hr, methodOnly_methodEvent]

lemma methodOnly_process_exception_go (c : Bool) (exc : Exc) (hooks : List Hook) :
    methodOnly (process_exception_go c exc hooks).2.2 = true := by
  induction hooks with
  | nil => rfl
  | cons h hs ih =>
      cases hr : h.run with
      | ok o =>
          cases o with
          | none =>
              simp only [process_exception_go, hr]
              exact methodOnly_append _ _ (methodOnly_methodEvent ..) ih
          | some r => simp [process_exception_go, hr, methodOnly_methodEvent]
      | bad ty => simp [process_exception_go, hr, methodOnly_methodEvent]
      | err ei => simp [process_exception_go, hr, methodOnly_methodEvent]

lemma methodRecords_map_none (mn : String) (hs : List Hook) :
    methodRecords (hs.map fun g => Event.methodComplete mn g.name none)
      = hs.map fun g => (g.name, (none : Option Exc)) := by
  induction hs with
  | nil => rfl
  | cons h hs ih => simp [methodRecords, ih]

lemma chainRecords_map_none (mn : String) (hs : List Hook) :
    chainRecords (hs.map fun g => Event.methodComplete mn g.name none) = [] := by
  induction hs with
  | nil => rfl
  | cons h hs ih => simp [chainRecords, ih]

/-- A prefix of `process_request` hooks that all return `None` is walked
through: each contributes its name and one clean invocation record, and
the run continues with the rest of the list. -/
lemma process_request_go_none_prefix (fetch : Except ExcInfo ℕ) (hs1 hs2 : List Hook)
    (hpre : ∀ g ∈ hs1, g.run = HookRes.ok none) :
    process_request_go true fetch (hs1 ++ hs2)
      = ((process_request_go true fetch hs2).1,
         hs1.map Hook.name ++ (process_request_go true fetch hs2).2.1,
         (hs1.map fun g => Event.methodComplete prName g.name none)
           ++ (process_request_go true fetch hs2).2.2) := by
  induction hs1 with
  | nil => simp
  | cons g gs ih =>
      have hg : g.run = HookRes.ok none := hpre g (by simp)
      have ih2 := ih fun x hx => hpre x (by simp [hx])
      simp [process_request_go, hg, methodEvent, ih2]

/-- Same walk-through for a `None`-returning prefix of `process_exception`
hooks. -/
lemma process_exception_go_none_prefix (exc : Exc) (hs1 hs2 : List Hook)
    (hpre : ∀ g ∈ hs1, g.run = HookRes.ok none) :
    process_exception_go true exc (hs1 ++ hs2)
      = ((process_exception_go true exc hs2).1,
         hs1.map Hook.name ++ (process_exception_go true exc hs2).2.1,
         (hs1.map fun g => Event.methodComplete peName g.name none)
           ++ (process_exception_go true exc hs2).2.2) := by
  induction hs1 with
  | nil => simp
  | cons g gs ih =>
      have hg : g.run = HookRes.ok none := hpre g (by simp)
      have ih2 := ih fun x hx => hpre x (by simp [hx])
      simp [process_exception_go, hg, methodEvent, ih2]

/-- If a prefix of the response chain runs to completion with final
response `m`, the whole chain continues with the suffix started at `m`,
and the names and events concatenate. -/
lemma process_response_go_append_resp (hs1 hs2 : List RespHook) (n m : ℕ)
    (hok : (process_response_go true hs1 n).1 = .ok (.resp m)) :
    process_response_go true (hs1 ++ hs2) n
      = ((process_response_go true hs2 m).1,
         (process_response_go true hs1 n).2.1
           ++ (process_response_go true hs2 m).2.1,
         (process_response_go true hs1 n).2.2
           ++ (process_response_go true hs2 m).2.2) := by
  induction hs1 generalizing n with
  | nil =>
      have hnm : n = m := by simpa [process_response_go] using hok
      subst hnm
      simp [process_response_go]
  | cons h hs ih =>
      cases hr : h.run n with
      | ok r =>
          cases r with
          | req q => simp [process_response_go, hr] at hok
          | resp k =>
              have hok2 : (process_response_go true hs k).1 = .ok (.resp m) := by
                simpa [process_response_go, hr] using hok
              simp [process_response_go, hr, ih k hok2]
      | bad ty => simp [process_response_go, hr] at hok
      | err ei => simp [process_response_go, hr] at hok

/-- In the `process_request` loop the `middlewares_executed` list and the
method-level records grow in lock step: one name appended before each
invocation, one record emitted in the per-invocation `finally`. -/
lemma process_request_go_counts (fetch : Except ExcInfo ℕ) (hooks : List Hook) :
    (process_request_go true fetch hooks).2.1.length
      = (methodRecords (process_request_go true fetch hooks).2.2).length := by
  induction hooks with
  | nil => cases fetch <;> rfl
  | cons h hs ih =>
      cases hr : h.run with
      | ok o =>
          cases o with
          | none =>
              simp [process_request_go, hr, methodEvent, methodRecords_append,
                methodRecords, ih]
          | some r => simp [process_request_go, hr, methodEvent, methodRecords]
      | bad ty => simp [process_request_go, hr, methodEvent, methodRecords]
      | err ei => simp [process_request_go, hr, methodEvent, methodRecords]

lemma add_middleware_request (st : Methods) (mw : Middleware) :
    (add_middleware st mw).process_request
      = st.process_request ++ (mw.process_request.map (Hook.mk mw.name)).toList := by
  rcases mw with ⟨nm, pq, ps, pe⟩
  cases pq <;> cases ps <;> cases pe <;> simp [add_middleware]

lemma add_middleware_response (st : Methods) (mw : Middleware) :
    (add_middleware st mw).process_response
      = (mw.process_response.map (RespHook.mk mw.name)).toList
          ++ st.process_response := by
  rcases mw with ⟨nm, pq, ps, pe⟩
  cases pq <;> cases ps <;> cases pe <;> simp [add_middleware]

lemma add_middleware_exception (st : Methods) (mw : Middleware) :
    (add_middleware st mw).process_exception
      = (mw.process_exception.map (Hook.mk mw.name)).toList
          ++ st.process_exception := by
  rcases mw with ⟨nm, pq, ps, pe⟩
  cases pq <;> cases ps <;> cases pe <;> simp [add_middleware]

lemma foldl_add_middleware_request (mws : List Middleware) (st : Methods) :
    (mws.foldl add_middleware st).process_request
      = st.process_request
          ++ mws.filterMap fun m => m.process_request.map (Hook.mk m.name) := by
  induction mws generalizing st with
  | nil => simp
  | cons m ms ih =>
      simp only [List.foldl_cons, ih, add_middleware_request, List.filterMap_cons]
      cases m.process_request <;> simp

lemma foldl_add_middleware_response (mws : List Middleware) (st : Methods) :
    (mws.foldl add_middleware st).process_response
      = (mws.filterMap fun m => m.process_response.map (RespHook.mk m.name)).reverse
          ++ st.process_response := by
  induction mws generalizing st with
  | nil => simp
  | cons m ms ih =>
      simp only [List.foldl_cons, ih, add_middleware_response, List.filterMap_cons]
      cases m.process_response <;> simp

lemma foldl_add_middleware_exception (mws : List Middleware) (st : Methods) :
    (mws.foldl add_middleware st).process_exception
      = (mws.filterMap fun m => m.process_exception.map (Hook.mk m.name)).reverse
          ++ st.process_exception := by
  induction mws generalizing st with
  | nil => simp
  | cons m ms ih =>
      simp only [List.foldl_cons, ih, add_middleware_exception, List.filterMap_cons]
      cases m.process_exception <;> simp

lemma filterMap_name_of_isSome {α : Type} (f : Middleware → Option α)
    (mws : List Middleware) :
    (mws.filterMap fun m => (f m).map fun _ => m.name)
      = (mws.filter fun m => (f m).isSome).map Middleware.name := by
  induction mws with
  | nil => rfl
  | cons m ms ih =>
      cases hf : f m <;> simp [List.filterMap_cons, List.filter_cons, hf, ih]

lemma yieldCount_chainEvent (c : Bool) (mn : String) (ns : List String)
    (er : Option Exc) : yieldCount (chainEvent c mn ns er) = 0 := by
  cases c <;> rfl

lemma yieldCount_process_request (c : Bool) (hooks : List Hook)
    (fetch : Except ExcInfo ℕ) :
    yieldCount (process_request c hooks fetch).2 = 0 := by
  simp [process_request, yieldCount_append, yieldCount_chainEvent,
    yieldCount_of_methodOnly _ (methodOnly_process_request_go c fetch hooks)]

lemma yieldCount_process_exception (c : Bool) (hooks : List Hook) (exc : Exc) :
    yieldCount (process_exception c hooks exc).2 = 0 := by
  simp [process_exception, yieldCount_append, yieldCount_chainEvent,
    yieldCount_of_methodOnly _ (methodOnly_process_exception_go c exc hooks)]

lemma yieldCount_process_response (c : Bool) (hooks : List RespHook)
    (input : Option Result) :
    yieldCount (process_response c hooks input).2 = 0 := by
  match input with
  | none => rfl
  | some (.req q) => rfl
  | some (.resp n) =>
      simp [process_response, yieldCount_append, yieldCount_chainEvent,
        yieldCount_of_methodOnly _ (methodOnly_process_response_go c hooks n)]

lemma chainRecordsOf_ne_chainEvent (mn mn2 : String) (ns : List String)
    (er : Option Exc) (hne : mn ≠ mn2) (c : Bool) :
    chainRecordsOf mn2 (chainEvent c mn ns er) = [] := by
  cases c <;> simp [chainEvent, chainRecordsOf, hne]

lemma chainRecordsOf_self_chainEvent (mn : String) (ns : List String)
    (er : Option Exc) :
    chainRecordsOf mn (chainEvent true mn ns er) = [(ns, er)] := by
  simp [chainEvent, chainRecordsOf]

lemma chainRecordsOf_pe_process_request (hooks : List Hook)
    (fetch : Except ExcInfo ℕ) :
    chainRecordsOf peName (process_request true hooks fetch).2 = [] := by
  simp [process_request, chainRecordsOf_append,
    chainRecordsOf_of_methodOnly _ _ (methodOnly_process_request_go true fetch hooks),
    chainRecordsOf_ne_chainEvent prName peName _ _ (by decide)]

lemma chainRecordsOf_pe_process_response (hooks : List RespHook)
    (input : Option Result) :
    chainRecordsOf peName (process_response true hooks input).2 = [] := by
  match input with
  | none => rfl
  | some (.req q) => rfl
  | some (.resp n) =>
      simp [process_response, chainRecordsOf_append,
        chainRecordsOf_of_methodOnly _ _ (methodOnly_process_response_go true hooks n),
        chainRecordsOf_ne_chainEvent psName peName _ _ (by decide)]

lemma chainRecordsOf_pe_process_exception (hooks : List Hook) (exc : Exc) :
    chainRecordsOf peName (process_exception true hooks exc).2
      = [((process_exception_go true exc hooks).2.1,
          chainErrOf (process_exception_go true exc hooks).1)] := by
  simp [process_exception, chainRecordsOf_append,
    chainRecordsOf_of_methodOnly _ _ (methodOnly_process_exception_go true exc hooks),
    chainRecordsOf_self_chainEvent]

/-- C2: registration stores `process_request` hooks in registration order
(append) and `process_response` / `process_exception` hooks in reverse
registration order (prepend); since each chain fires its stored list front
to back, `onRequest` hooks fire in registration order while `onResponse`
and `onException` hooks fire in reverse registration order. -/
theorem C2_registration_order (mws : List Middleware) :
    (register mws).process_request.map Hook.name
        = (mws.filter fun m => m.process_request.isSome).map Middleware.name
  ∧ (register mws).process_response.map RespHook.name
        = ((mws.filter fun m => m.process_response.isSome).map
            Middleware.name).reverse
  ∧ (register mws).process_exception.map Hook.name
        = ((mws.filter fun m => m.process_exception.isSome).map
            Middleware.name).reverse := by
  refine ⟨?_, ?_, ?_⟩
  · rw [register, foldl_add_middleware_request]
    simp only [List.nil_append, List.map_filterMap, Option.map_map]
    rw [← filterMap_name_of_isSome fun m => m.process_request]
    rfl
  · rw [register, foldl_add_middleware_response]
    simp only [List.append_nil, List.map_reverse, List.map_filterMap,
      Option.map_map]
    rw [← filterMap_name_of_isSome fun m => m.process_response]
    rfl
  · rw [register, foldl_add_middleware_exception]
    simp only [List.append_nil, List.map_reverse, List.map_filterMap,
      Option.map_map]
    rw [← filterMap_name_of_isSome fun m => m.process_exception]
    rfl

/-- C4: a `Request` input makes `process_response` return it unchanged,
before the chain is entered: no `process_response` hook is invoked and no
event at all is emitted. -/
theorem C4_request_input_bypasses_chain (crawler : Bool) (hooks : List RespHook)
    (q : ℕ) :
    process_response crawler hooks (some (.req q)) = (.ok (.req q), []) := rfl

/-- C9: a `None` input makes `process_response` fail with the
`TypeError("Received None in process_response")` protocol-violation error
before the chain is entered: no hook is invoked and no event is emitted. -/
theorem C9_none_input_invalid_state (crawler : Bool) (hooks : List RespHook) :
    process_response crawler hooks none = (.err .typeErrorNone, []) := rfl

/-- C1: `process_request` invokes the registered hooks in list order and
returns the first non-`None` hook result, skipping the fetch and the
remaining hooks (the outcome and the invocation records are independent
of the fetch and of the hooks after the short-circuiting one); if every
hook returns `None`, it invokes the fetch and returns its result. -/
theorem C1_process_request_first_result (hs1 hs2 : List Hook) (h : Hook)
    (r : Result) (fetch : Except ExcInfo ℕ)
    (hpre : ∀ g ∈ hs1, g.run = HookRes.ok none)
    (hh : h.run = HookRes.ok (some r)) :
    (process_request true (hs1 ++ h :: hs2) fetch).1 = .ok r
  ∧ methodRecords (process_request true (hs1 ++ h :: hs2) fetch).2
      = (hs1.map fun g => (g.name, (none : Option Exc))) ++ [(h.name, none)]
  ∧ (process_request true hs1 fetch).1
      = (match fetch with
         | .ok n => Outcome.ok (.resp n)
         | .error e => Outcome.err (.raised e))
  ∧ methodRecords (process_request true hs1 fetch).2
      = hs1.map fun g => (g.name, (none : Option Exc)) := by
  have hgo := process_request_go_none_prefix fetch hs1 (h :: hs2) hpre
  have hgo0 := process_request_go_none_prefix fetch hs1 [] hpre
  rw [List.append_nil] at hgo0
  refine ⟨?_, ?_, ?_, ?_⟩
  · simp [process_request, hgo, process_request_go, hh]
  · simp [process_request, hgo, process_request_go, hh, methodEvent, chainEvent,
      methodRecords_append, methodRecords_map_none, methodRecords]
  · cases fetch <;> simp [process_request, hgo0, process_request_go]
  · cases fetch <;>
      simp [process_request, hgo0, process_request_go, methodEvent, chainEvent,
        methodRecords_append, methodRecords_map_none, methodRecords]

/-- C1 witness: with hooks `[AuthMW ↦ None, CacheMW ↦ Response 7,
RetryMW ↦ None]`, the chain returns `Response 7` having invoked only the
first two hooks, and on the all-`None` list `[AuthMW]` it returns the
fetch result. -/
theorem C1_witness :
    (process_request true ([hookNoneA] ++ hookRespB :: [hookNoneC])
        (Except.ok 3)).1 = .ok (.resp 7)
  ∧ methodRecords (process_request true ([hookNoneA] ++ hookRespB :: [hookNoneC])
        (Except.ok 3)).2
      = ([hookNoneA].map fun g => (g.name, (none : Option Exc)))
          ++ [(hookRespB.name, none)]
  ∧ (process_request true [hookNoneA] (Except.ok 3)).1
      = (match (Except.ok 3 : Except ExcInfo ℕ) with
         | .ok n => Outcome.ok (.resp n)
         | .error e => Outcome.err (.raised e))
  ∧ methodRecords (process_request true [hookNoneA] (Except.ok 3)).2
      = [hookNoneA].map fun g => (g.name, (none : Option Exc)) :=
  C1_process_request_first_result [hookNoneA] [hookNoneC] hookRespB (.resp 7)
    (Except.ok 3) (by decide) (by decide)

/-- C7 counterexample: the claim asserts exactly one `ChainRecord` on every
`process_response` invocation, for every input; but on a `Request` input
`process_response` returns before the chain-level `try/finally` is entered
and emits no `ChainRecord` at all. -/
theorem C7_counterexample :
    ¬ (chainRecords (process_response true [] (some (Result.req 0))).2).length
        = 1 := by decide

/-- C7 amended: `process_response` emits exactly one chain-level record
whenever it is invoked with a `Response` input, on every outcome (normal
return, short-circuit, or raised error); for a `Request` input it returns
before the chain and emits no event, and for an empty input it raises
before the chain and emits no event. -/
theorem C7_chain_record_on_response_input (hooks : List RespHook) (n q : ℕ) :
    (chainRecords (process_response true hooks (some (.resp n))).2).length = 1
  ∧ chainRecords (process_response true hooks (some (.req q))).2 = []
  ∧ chainRecords (process_response true hooks none).2 = [] := by
  refine ⟨?_, rfl, rfl⟩
  simp [process_response, chainRecords_append, chainEvent, chainRecords,
    chainRecords_of_methodOnly _ (methodOnly_process_response_go true hooks n)]

/-- C3: `process_exception` invokes the stored hooks in order and returns
the first non-`None` result; the orchestration then passes that result to
`process_response`.  If no hook returns a non-`None` result the original
exception is re-raised unchanged, and when `process_exception` propagates
an error the orchestration returns it directly: `process_response` is
never invoked (its events do not appear). -/
theorem C3_process_exception_recovery (hs1 hs2 : List Hook) (h : Hook)
    (r rr : Result) (exc e e2 : Exc) (m : Methods) (fetch : Except ExcInfo ℕ)
    (hpre : ∀ g ∈ hs1, g.run = HookRes.ok none)
    (hh : h.run = HookRes.ok (some r))
    (hreq : (process_request true m.process_request fetch).1 = .err e)
    (hex : e.isException = true) :
    (process_exception true (hs1 ++ h :: hs2) exc).1 = .ok r
  ∧ methodRecords (process_exception true (hs1 ++ h :: hs2) exc).2
      = (hs1.map fun g => (g.name, (none : Option Exc))) ++ [(h.name, none)]
  ∧ (process_exception true hs1 exc).1 = .err exc
  ∧ ((process_exception true m.process_exception e).1 = .ok rr →
      (download_async true m fetch).1
        = (process_response true m.process_response (some rr)).1)
  ∧ ((process_exception true m.process_exception e).1 = .err e2 →
      download_async true m fetch
        = (.err e2,
           (process_request true m.process_request fetch).2
             ++ Event.yielded
               :: (process_exception true m.process_exception e).2)) := by
  have hgo := process_exception_go_none_prefix exc hs1 (h :: hs2) hpre
  have hgo0 := process_exception_go_none_prefix exc hs1 [] hpre
  rw [List.append_nil] at hgo0
  refine ⟨?_, ?_, ?_, ?_, ?_⟩
  · simp [process_exception, hgo, process_exception_go, hh]
  · simp [process_exception, hgo, process_exception_go, hh, methodEvent,
      chainEvent, methodRecords_append, methodRecords_map_none, methodRecords]
  · simp [process_exception, hgo0, process_exception_go]
  · intro hpe
    simp [download_async, hreq, hex, hpe]
  · intro hpe
    simp [download_async, hreq, hex, hpe]

/-- C3 witness: with exception hooks `[AuthMW ↦ None, CacheMW ↦ Response 7,
RetryMW ↦ None]` the first non-`None` result is returned; on the
all-`None` prefix alone the original exception is re-raised; in the
orchestration a resolved exception feeds `process_response` and an
unresolved one propagates without invoking it. -/
theorem C3_witness :
    (process_exception true ([hookNoneA] ++ hookRespB :: [hookNoneC])
        (Exc.raised boom)).1 = .ok (.resp 7)
  ∧ (process_exception true [hookNoneA] (Exc.raised boom)).1
      = .err (Exc.raised boom)
  ∧ (download_async true mwFail (Except.ok 0)).1
      = (process_response true mwFail.process_response (some (.resp 3))).1
  ∧ download_async true mwUnresolved (Except.ok 0)
      = (.err (Exc.raised boom),
         (process_request true mwUnresolved.process_request (Except.ok 0)).2
           ++ Event.yielded
             :: (process_exception true mwUnresolved.process_exception
                  (Exc.raised boom)).2) :=
  have h1 := C3_process_exception_recovery [hookNoneA] [hookNoneC] hookRespB
      (.resp 7) (.resp 3) (Exc.raised boom) (Exc.raised boom) (Exc.raised boom)
      mwFail (Except.ok 0) (by decide) (by decide) (by decide) (by decide)
  have h2 := C3_process_exception_recovery [hookNoneA] [hookNoneC] hookRespB
      (.resp 7) (.resp 3) (Exc.raised boom) (Exc.raised boom) (Exc.raised boom)
      mwUnresolved (Except.ok 0) (by decide) (by decide) (by decide) (by decide)
  ⟨h1.1, h1.2.2.1, h1.2.2.2.1 (by decide), h2.2.2.2.2 (by decide)⟩

/-- C5: on a `Response` input, `process_response` threads the current
response through the stored list: a hook returning a `Request` stops the
chain immediately and that `Request` is returned; a hook returning a
`Response` makes that value the input of the rest of the chain; an
exhausted list returns the final response. -/
theorem C5_response_threading (hs : List RespHook) (h1 h2 : RespHook)
    (n n2 n3 m q : ℕ)
    (hstop : h1.run n = .ok (.req q))
    (hthread : h2.run n2 = .ok (.resp m)) :
    process_response true (h1 :: hs) (some (.resp n))
        = (.ok (.req q),
           [Event.methodComplete psName h1.name none,
            Event.chainComplete psName [h1.name] none])
  ∧ (process_response true (h2 :: hs) (some (.resp n2))).1
      = (process_response true hs (some (.resp m))).1
  ∧ methodRecords (process_response true (h2 :: hs) (some (.resp n2))).2
      = (h2.name, (none : Option Exc))
          :: methodRecords (process_response true hs (some (.resp m))).2
  ∧ process_response true [] (some (.resp n3))
      = (.ok (.resp n3), [Event.chainComplete psName [] none]) := by
  refine ⟨?_, ?_, ?_, rfl⟩
  · simp [process_response, process_response_go, hstop, methodEvent, chainEvent,
      chainErrOf]
  · simp [process_response, process_response_go, hthread]
  · simp [process_response, process_response_go, hthread, methodEvent,
      chainEvent, methodRecords_append, methodRecords]

/-- C5 witness: `AuthMW` returning `Request 9` on response `5` stops the
chain; `CacheMW` mapping response `4` to response `5` threads it into the
rest of the chain; the empty list returns the final response `8`. -/
theorem C5_witness :
    process_response true (rhookReqA :: [rhookBadC]) (some (.resp 5))
        = (.ok (.req 9),
           [Event.methodComplete psName rhookReqA.name none,
            Event.chainComplete psName [rhookReqA.name] none])
  ∧ (process_response true (rhookIncB :: [rhookBadC]) (some (.resp 4))).1
      = (process_response true [rhookBadC] (some (.resp 5))).1
  ∧ methodRecords (process_response true (rhookIncB :: [rhookBadC])
        (some (.resp 4))).2
      = (rhookIncB.name, (none : Option Exc))
          :: methodRecords (process_response true [rhookBadC]
                (some (.resp 5))).2
  ∧ process_response true [] (some (.resp 8))
      = (.ok (.resp 8), [Event.chainComplete psName [] none]) :=
  C5_response_threading [rhookBadC] rhookReqA rhookIncB 5 4 8 5 9
    (by decide) (by decide)

/-- C6: each `process_request` run emits exactly one chain-level record;
its executed-names list is as long as the list of invocation records of
the run (one name appended before each invocation, one record emitted in
the per-invocation `finally`); and a hook that raises still gets its
invocation record, carrying the error, before the error propagates to the
chain record. -/
theorem C6_request_chain_telemetry (hooks hs1 hs2 : List Hook) (h : Hook)
    (fetch : Except ExcInfo ℕ) (ei : ExcInfo)
    (hpre : ∀ g ∈ hs1, g.run = HookRes.ok none)
    (hh : h.run = HookRes.err ei) :
    (chainRecords (process_request true hooks fetch).2).length = 1
  ∧ (∀ p ∈ chainRecords (process_request true hooks fetch).2,
      p.1.length = (methodRecords (process_request true hooks fetch).2).length)
  ∧ methodRecords (process_request true (hs1 ++ h :: hs2) fetch).2
      = (hs1.map fun g => (g.name, (none : Option Exc)))
          ++ [(h.name, some (.raised ei))]
  ∧ chainRecords (process_request true (hs1 ++ h :: hs2) fetch).2
      = [(hs1.map Hook.name ++ [h.name], some (.raised ei))] := by
  have hcr : chainRecords (process_request true hooks fetch).2
      = [((process_request_go true fetch hooks).2.1,
          chainErrOf (process_request_go true fetch hooks).1)] := by
    simp [process_request, chainRecords_append, chainEvent, chainRecords,
      chainRecords_of_methodOnly _ (methodOnly_process_request_go true fetch hooks)]
  have hmr : methodRecords (process_request true hooks fetch).2
      = methodRecords (process_request_go true fetch hooks).2.2 := by
    simp [process_request, methodRecords_append, chainEvent, methodRecords]
  have hgo := process_request_go_none_prefix fetch hs1 (h :: hs2) hpre
  refine ⟨by rw [hcr]; rfl, ?_, ?_, ?_⟩
  · intro p hp
    rw [hcr] at hp
    simp only [List.mem_singleton] at hp
    subst hp
    rw [hmr]
    exact process_request_go_counts fetch hooks
  · simp [process_request, hgo, process_request_go, hh, methodEvent, chainEvent,
      methodRecords_append, methodRecords_map_none, methodRecords]
  · simp [process_request, hgo, process_request_go, hh, methodEvent, chainEvent,
      chainRecords_append, chainRecords_map_none, chainRecords, chainErrOf]

/-- C6 witness: the run `[AuthMW ↦ None, CacheMW ↦ raise]` emits one chain
record, whose executed list `[AuthMW, CacheMW]` is as long as its two
invocation records, the second of which carries the raised error. -/
theorem C6_witness :
    (chainRecords (process_request true [hookNoneA, hookRaiseB]
        (Except.ok 0)).2).length = 1
  ∧ (([nmA, nmB] : List String),
       some (Exc.raised boom)).1.length
      = (methodRecords (process_request true [hookNoneA, hookRaiseB]
            (Except.ok 0)).2).length
  ∧ methodRecords (process_request true ([hookNoneA] ++ hookRaiseB :: [])
        (Except.ok 0)).2
      = ([hookNoneA].map fun g => (g.name, (none : Option Exc)))
          ++ [(hookRaiseB.name, some (.raised boom))]
  ∧ chainRecords (process_request true ([hookNoneA] ++ hookRaiseB :: [])
        (Except.ok 0)).2
      = [([hookNoneA].map Hook.name ++ [hookRaiseB.name],
          some (.raised boom))] :=
  have hmain := C6_request_chain_telemetry [hookNoneA, hookRaiseB] [hookNoneA]
      [] hookRaiseB (Except.ok 0) boom (by decide) (by decide)
  ⟨hmain.1,
   hmain.2.1 ([nmA, nmB], some (Exc.raised boom)) (by decide),
   hmain.2.2.1, hmain.2.2.2⟩

/-- C8: a response hook returning a value that is neither a `Response`
nor a `Request` makes the chain fail with the `_InvalidOutput` error
naming that hook and the offending type; no further hook runs (the
invocation records stop at the offending hook) and the chain record is
still emitted with that error attached. -/
theorem C8_response_type_mismatch (hs1 hs2 : List RespHook) (h : RespHook)
    (n m : ℕ) (ty : String)
    (hpre : (process_response_go true hs1 n).1 = .ok (.resp m))
    (hh : h.run m = .bad ty) :
    (process_response true (hs1 ++ h :: hs2) (some (.resp n))).1
        = .err (.invalidOutput h.name psName ty)
  ∧ methodRecords (process_response true (hs1 ++ h :: hs2) (some (.resp n))).2
      = methodRecords (process_response_go true hs1 n).2.2
          ++ [(h.name, some (.invalidOutput h.name psName ty))]
  ∧ chainRecords (process_response true (hs1 ++ h :: hs2) (some (.resp n))).2
      = [((process_response_go true hs1 n).2.1 ++ [h.name],
          some (.invalidOutput h.name psName ty))] := by
  have happ := process_response_go_append_resp hs1 (h :: hs2) n m hpre
  refine ⟨?_, ?_, ?_⟩
  · simp [process_response, happ, process_response_go, hh]
  · simp [process_response, happ, process_response_go, hh, methodEvent,
      chainEvent, methodRecords_append, methodRecords]
  · simp [process_response, happ, process_response_go, hh, methodEvent,
      chainEvent, chainRecords_append, chainRecords, chainErrOf,
      chainRecords_of_methodOnly _ (methodOnly_process_response_go true hs1 n)]

/-- C8 witness: after `CacheMW` maps response `4` to `5`, `RetryMW` returns
an `int`: the chain fails with `_InvalidOutput` naming `RetryMW` and
`int`, the invocation records stop at `RetryMW`, and the chain record
carries the error. -/
theorem C8_witness :
    (process_response true ([rhookIncB] ++ rhookBadC :: [rhookReqA])
        (some (.resp 4))).1
        = .err (.invalidOutput rhookBadC.name psName tyInt)
  ∧ methodRecords (process_response true ([rhookIncB] ++ rhookBadC :: [rhookReqA])
        (some (.resp 4))).2
      = methodRecords (process_response_go true [rhookIncB] 4).2.2
          ++ [(rhookBadC.name, some (.invalidOutput rhookBadC.name psName tyInt))]
  ∧ chainRecords (process_response true ([rhookIncB] ++ rhookBadC :: [rhookReqA])
        (some (.resp 4))).2
      = [((process_response_go true [rhookIncB] 4).2.1 ++ [rhookBadC.name],
          some (.invalidOutput rhookBadC.name psName tyInt))] :=
  C8_response_type_mismatch [rhookIncB] [rhookReqA] rhookBadC 4 5 tyInt
    (by decide) (by decide)

/-- C10: the orchestration catches only `Exception`: a `process_request`
failure that is a `BaseException` but not an `Exception` propagates
directly — no yield, no exception chain, the emissions are exactly those
of `process_request`; when the failure is an `Exception`, recovery runs
exactly once, preceded by exactly one cooperative yield (one `yielded`
event and one `process_exception` chain record in the whole run). -/
theorem C10_orchestration_catches_only_exceptions (m : Methods)
    (fetch : Except ExcInfo ℕ) (e : Exc)
    (hreq : (process_request true m.process_request fetch).1 = .err e) :
    (e.isException = false →
      download_async true m fetch
        = (.err e, (process_request true m.process_request fetch).2))
  ∧ (e.isException = true →
      yieldCount (download_async true m fetch).2 = 1
      ∧ (chainRecordsOf peName (download_async true m fetch).2).length = 1) := by
  constructor
  · intro hfalse
    simp [download_async, hreq, hfalse]
  · intro htrue
    cases hpe : (process_exception true m.process_exception e).1 with
    | ok r =>
        constructor
        · simp [download_async, hreq, htrue, hpe, yieldCount_append, yieldCount,
            yieldCount_process_request, yieldCount_process_exception,
            yieldCount_process_response]
        · simp [download_async, hreq, htrue, hpe, chainRecordsOf_append,
            chainRecordsOf, chainRecordsOf_pe_process_request,
            chainRecordsOf_pe_process_exception, chainRecordsOf_pe_process_response]
    | err e2 =>
        constructor
        · simp [download_async, hreq, htrue, hpe, yieldCount_append, yieldCount,
            yieldCount_process_request, yieldCount_process_exception]
        · simp [download_async, hreq, htrue, hpe, chainRecordsOf_append,
            chainRecordsOf, chainRecordsOf_pe_process_request,
            chainRecordsOf_pe_process_exception]

/-- C10 witness: a `KeyboardInterrupt` out of the request chain propagates
directly with only the request-chain emissions, while a `RuntimeError`
triggers exactly one yield and one exception-chain record. -/
theorem C10_witness :
    download_async true mwInterrupt (Except.ok 0)
        = (.err (.raised interrupt),
           (process_request true mwInterrupt.process_request (Except.ok 0)).2)
  ∧ yieldCount (download_async true mwFail (Except.ok 0)).2 = 1
  ∧ (chainRecordsOf peName (download_async true mwFail (Except.ok 0)).2).length
      = 1 :=
  have h1 := C10_orchestration_catches_only_exceptions mwInterrupt
      (Except.ok 0) (.raised interrupt) (by decide)
  have h2 := C10_orchestration_catches_only_exceptions mwFail
      (Except.ok 0) (.raised boom) (by decide)
  ⟨h1.1 (by decide), (h2.2 (by decide)).1, (h2.2 (by decide)).2⟩

end DownloaderMW
